import Mathlib

/-!
Verification development for the mcp-file-editor server.

The TypeScript sources are shallowly embedded: every validator and handler
becomes a pure Lean function, the filesystem becomes an explicit association
list from paths to file contents, and message strings returned to the client
are represented by an inductive type with one constructor per return site.
Strings are processed at the character-list level with structurally recursive
helpers so that every definition is executable by the kernel.
-/

namespace FileEditor

/-! ## Character-level string helpers

JavaScript `String.prototype.split` with a one-character separator, modelled
on `List Char`.  `"".split(sep)` gives `[""]` and separators at the edges
produce empty segments, exactly as in JS. -/

def splitChar (sep : Char) : List Char → List Char → List (List Char)
  | cur, [] => [cur.reverse]
  | cur, c :: rest =>
    if c = sep then cur.reverse :: splitChar sep [] rest
    else splitChar sep (c :: cur) rest

/-- Joining segments with a separator: inverse of `splitChar`. -/
def joinChar (sep : Char) : List (List Char) → List Char
  | [] => []
  | [s] => s
  | s :: rest => s ++ sep :: joinChar sep rest

/-- Does the character list contain the two-character substring ".." anywhere?
This is the semantics of `normalizedPath.includes("..")` in validation.ts. -/
def hasDotDot : List Char → Bool
  | [] => false
  | [_] => false
  | a :: b :: rest => (a = '.' && b = '.') || hasDotDot (b :: rest)

/-- Node `path.posix.isAbsolute`: the first character is a slash. -/
def isAbsoluteChars : List Char → Bool
  | [] => false
  | c :: _ => c = '/'

/-- Does the path end with a slash (trailing separator in Node normalize)? -/
def hasTrailingSlash (l : List Char) : Bool :=
  l.getLast? = some '/'

/-! ## Node path.posix.normalize

`normalizeString` from Node lib/path.js processes the slash-separated
segments left to right keeping a stack (here accumulated in reverse):
empty and "." segments are dropped; ".." pops a previous real segment,
and otherwise is kept only when `allowAboveRoot` (i.e. for relative
paths). -/

def normStep (a : Bool) (stk : List (List Char)) (seg : List Char) : List (List Char) :=
  if seg = [] ∨ seg = ['.'] then stk
  else if seg = ['.', '.'] then
    if stk.head? = some ['.', '.'] then (if a then ['.', '.'] :: stk else stk)
    else if stk = [] then (if a then [['.', '.']] else [])
    else stk.tail
  else seg :: stk

def normStack (a : Bool) (stk : List (List Char)) : List (List Char) → List (List Char)
  | [] => stk
  | seg :: rest => normStack a (normStep a stk seg) rest

/-- The slash-joined normalized body of a path (before re-attaching the
leading slash of an absolute path or a trailing separator). -/
def normBody (a : Bool) (p : List Char) : List Char :=
  joinChar '/' (normStack a [] (splitChar '/' [] p)).reverse

/-- Node `path.posix.normalize` on character lists, including the special
cases for the empty path, an empty normalized body, and preservation of a
trailing separator. -/
def posixNormalizeChars (p : List Char) : List Char :=
  if p = [] then ['.']
  else
    let isAbs := isAbsoluteChars p
    let trailing := hasTrailingSlash p
    let body := normBody (!isAbs) p
    if body = [] then
      if isAbs then ['/'] else if trailing then ['.', '/'] else ['.']
    else
      if isAbs then '/' :: (if trailing then body ++ ['/'] else body)
      else if trailing then body ++ ['/'] else body

def posixNormalize (p : String) : String :=
  ⟨posixNormalizeChars p.data⟩

def isAbsolute (p : String) : Bool :=
  isAbsoluteChars p.data

def stringHasDotDot (p : String) : Bool :=
  hasDotDot p.data

/-- The spec notion of containing a parent-directory segment: some
slash-separated segment of the string is exactly "..". -/
def hasParentSegment (p : String) : Prop :=
  ['.', '.'] ∈ splitChar '/' [] p.data

instance (p : String) : Decidable (hasParentSegment p) := by
  unfold hasParentSegment; infer_instance

/-! ## validation.ts -/

/-- validation.ts `validatePath`: normalize, then
`!normalizedPath.includes("..") && !path.isAbsolute(normalizedPath) || path.isAbsolute(normalizedPath)`
with JavaScript operator precedence (conjunction binds tighter). -/
def validatePath (filePath : String) : Bool :=
  let normalizedPath := posixNormalize filePath
  (!(stringHasDotDot normalizedPath) && !(isAbsolute normalizedPath)) || isAbsolute normalizedPath

/-! ## Node path.posix.extname

Faithful embedding of the scanning loop in Node lib/path.js: iterate from
the last character towards the front, recording the end of the basename,
the position of the last dot, the start of the basename, and the
`preDotState` flag that rules out dotfiles and the ".." component. -/

structure ExtState where
  startDot : Int
  startPart : Nat
  endIdx : Int
  matchedSlash : Bool
  preDotState : Int
deriving DecidableEq

def extLoop : List (Nat × Char) → ExtState → ExtState
  | [], st => st
  | (i, c) :: rest, st =>
    if c = '/' then
      if !st.matchedSlash then { st with startPart := i + 1 }
      else extLoop rest st
    else
      let st1 :=
        if st.endIdx = -1 then
          { st with matchedSlash := false, endIdx := (i : Int) + 1 }
        else st
      let st2 :=
        if c = '.' then
          if st1.startDot = -1 then { st1 with startDot := (i : Int) }
          else if st1.preDotState ≠ 1 then { st1 with preDotState := 1 }
          else st1
        else if st1.startDot ≠ -1 then { st1 with preDotState := -1 }
        else st1
      extLoop rest st2

/-- Node `path.posix.extname`: the extension of the final path segment,
empty for dotfiles and for basenames made only of dots except a final
run longer than two. -/
def extname (p : String) : String :=
  let st := extLoop p.data.enum.reverse ⟨-1, 0, -1, true, 0⟩
  if st.startDot = -1 ∨ st.endIdx = -1 ∨ st.preDotState = 0 ∨
     (st.preDotState = 1 ∧ st.startDot = st.endIdx - 1 ∧
      st.startDot = (st.startPart : Int) + 1) then
    ""
  else
    ⟨(p.data.take st.endIdx.toNat).drop st.startDot.toNat⟩

/-- Definition following the words of the claim, for comparison with the
source function: the extension of a path is the substring from the last
dot of the final path segment, including the dot; a path with no dot in
its final segment yields the empty string. -/
def lastDotSuffix : List Char → Option (List Char)
  | [] => none
  | c :: rest =>
    match lastDotSuffix rest with
    | some s => some s
    | none => if c = '.' then some (c :: rest) else none

/-- Definition following the words of the claim (see `lastDotSuffix`). -/
def claimExtension (p : String) : String :=
  match lastDotSuffix ((splitChar '/' [] p.data).getLastD []) with
  | some s => ⟨s⟩
  | none => ""

/-! ## config.ts -/

structure Config where
  allowedExtensions : List String
  maxFileSize : Nat
deriving DecidableEq

/-- JavaScript whitespace characters trimmed by `String.prototype.trim`
(the ASCII ones; the sources only use ASCII configuration values). -/
def isWsChar (c : Char) : Bool :=
  c = ' ' || c = '\t' || c = '\n' || c = '\r' || c = '\x0b' || c = '\x0c'

def trimChars (l : List Char) : List Char :=
  ((l.dropWhile isWsChar).reverse.dropWhile isWsChar).reverse

/-- config.ts: each comma-separated token is trimmed and a leading dot is
prepended when absent. -/
def normalizeExtToken (l : List Char) : List Char :=
  let trimmed := trimChars l
  if trimmed.head? = some '.' then trimmed else '.' :: trimmed

/-- config.ts `loadConfig`: parse the ALLOWED_EXTENSIONS variable. -/
def parseAllowedExtensions (s : String) : List String :=
  (splitChar ',' [] s.data).map fun l => (⟨normalizeExtToken l⟩ : String)

/-- config.ts: the default allow-set used when ALLOWED_EXTENSIONS is unset. -/
def defaultExtensions : List String :=
  [".md", ".txt", ".json", ".yaml", ".yml", ".csv", ".log"]

def defaultConfig : Config :=
  ⟨defaultExtensions, 10485760⟩

/-! ## validation.ts, remaining functions -/

/-- validation.ts `validateFileExtension`:
`config.allowedExtensions.includes(path.extname(filePath))`. -/
def validateFileExtension (filePath : String) (config : Config) : Bool :=
  config.allowedExtensions.contains (extname filePath)

/-- validation.ts `validateContentSize`:
`Buffer.byteLength(content, "utf8") <= config.maxFileSize`. -/
def validateContentSize (content : String) (config : Config) : Bool :=
  content.utf8ByteSize ≤ config.maxFileSize

/-! ## The filesystem model

The filesystem is an association list from paths to file contents; a file
written with UTF-8 content `c` has stat size `c.utf8ByteSize`.  Handlers
return the (possibly updated) filesystem together with the message sent
back through the tool-result channel. -/

def FS := List (String × String)
deriving DecidableEq

def lookupFS (fs : FS) (p : String) : Option String :=
  List.lookup p fs

def setFS (fs : FS) (p v : String) : FS :=
  (p, v) :: fs

/-- validation.ts `checkFileSize`: stat the file and compare with the
limit; a missing file passes the check. -/
def checkFileSize (filePath : String) (config : Config) (fs : FS) : Bool :=
  match lookupFS fs filePath with
  | some content => content.utf8ByteSize ≤ config.maxFileSize
  | none => true

/-- One constructor per textual return site of handlers.ts; the payload
fields carry exactly the data interpolated into the corresponding
Japanese message. -/
inductive HandlerMsg where
  | invalidPath
  | extNotAllowed (ext : String) (allowed : List String)
  | fileTooLarge (maxSize : Nat)
  | contentTooLargeWrite (maxSize : Nat)
  | contentTooLargeCreate (maxSize : Nat)
  | alreadyExists (path : String)
  | doesNotExist (path : String)
  | appendTooLarge (maxSize : Nat)
  | readSuccess (content : String)
  | readFailure
  | writeSuccess (path : String)
  | createSuccess (path : String)
  | appendSuccess (path : String)
  | existsMsg (path : String) (exists_ : Bool)
  | fileInfo (path : String) (size : Nat) (ext : String) (allowed : Bool)
  | infoFailure
  | readWindowed (header : Nat × Nat × Nat) (body : List String)
  | readRangeError (total : Nat) (reqStart : Nat) (reqEnd : Nat)
deriving DecidableEq

/-- Which messages are error messages (the textual failures, as opposed
to the success payloads). -/
def isErrorMsg : HandlerMsg → Bool
  | .invalidPath => true
  | .extNotAllowed _ _ => true
  | .fileTooLarge _ => true
  | .contentTooLargeWrite _ => true
  | .contentTooLargeCreate _ => true
  | .alreadyExists _ => true
  | .doesNotExist _ => true
  | .appendTooLarge _ => true
  | .readFailure => true
  | .infoFailure => true
  | .readRangeError _ _ _ => true
  | _ => false

/-! ## handlers.ts -/

/-- handlers.ts `handleReadFile` (the whole-file read in the provided
sources): path check, extension check, existing-size check, then read.
A read of a missing file throws in the source and is caught by the
surrounding catch, producing a textual failure. -/
def handleReadFile (filePath : String) (config : Config) (fs : FS) :
    FS × HandlerMsg :=
  if !(validatePath filePath) then (fs, .invalidPath)
  else if !(validateFileExtension filePath config) then
    (fs, .extNotAllowed (extname filePath) config.allowedExtensions)
  else if !(checkFileSize filePath config fs) then
    (fs, .fileTooLarge config.maxFileSize)
  else
    match lookupFS fs filePath with
    | some content => (fs, .readSuccess content)
    | none => (fs, .readFailure)

/-- handlers.ts `handleWriteFile`: path check, extension check,
content-size check, then overwrite. -/
def handleWriteFile (filePath content : String) (config : Config) (fs : FS) :
    FS × HandlerMsg :=
  if !(validatePath filePath) then (fs, .invalidPath)
  else if !(validateFileExtension filePath config) then
    (fs, .extNotAllowed (extname filePath) config.allowedExtensions)
  else if !(validateContentSize content config) then
    (fs, .contentTooLargeWrite config.maxFileSize)
  else (setFS fs filePath content, .writeSuccess filePath)

/-- handlers.ts `handleFileExists`: path check, then existence probe. -/
def handleFileExists (filePath : String) (fs : FS) : FS × HandlerMsg :=
  if !(validatePath filePath) then (fs, .invalidPath)
  else (fs, .existsMsg filePath (lookupFS fs filePath).isSome)

/-- handlers.ts `handleCreateFile`: path check, extension check,
existence check (distinct already-exists failure), content-size check,
then write. -/
def handleCreateFile (filePath content : String) (config : Config) (fs : FS) :
    FS × HandlerMsg :=
  if !(validatePath filePath) then (fs, .invalidPath)
  else if !(validateFileExtension filePath config) then
    (fs, .extNotAllowed (extname filePath) config.allowedExtensions)
  else if (lookupFS fs filePath).isSome then (fs, .alreadyExists filePath)
  else if !(validateContentSize content config) then
    (fs, .contentTooLargeCreate config.maxFileSize)
  else (setFS fs filePath content, .createSuccess filePath)

/-- handlers.ts `handleAppendFile`: path check, extension check,
existence check (distinct does-not-exist failure), then the stat-based
post-append size check, then append. -/
def handleAppendFile (filePath content : String) (config : Config) (fs : FS) :
    FS × HandlerMsg :=
  if !(validatePath filePath) then (fs, .invalidPath)
  else if !(validateFileExtension filePath config) then
    (fs, .extNotAllowed (extname filePath) config.allowedExtensions)
  else
    match lookupFS fs filePath with
    | none => (fs, .doesNotExist filePath)
    | some old =>
      if old.utf8ByteSize + content.utf8ByteSize > config.maxFileSize then
        (fs, .appendTooLarge config.maxFileSize)
      else (setFS fs filePath (old ++ content), .appendSuccess filePath)

/-- handlers.ts `handleGetFileInfo`: path check, then stat; a stat of a
missing file throws and is caught, producing a textual failure. -/
def handleGetFileInfo (filePath : String) (config : Config) (fs : FS) :
    FS × HandlerMsg :=
  if !(validatePath filePath) then (fs, .invalidPath)
  else
    match lookupFS fs filePath with
    | none => (fs, .infoFailure)
    | some content =>
      (fs, .fileInfo filePath content.utf8ByteSize (extname filePath)
        (validateFileExtension filePath config))

/-- The stat-based append size check of handlers.ts in isolation: did the
request exceed the limit given the current stored size? -/
def appendOverLimit (fs : FS) (filePath content : String) (config : Config) : Bool :=
  match lookupFS fs filePath with
  | some old => old.utf8ByteSize + content.utf8ByteSize > config.maxFileSize
  | none => false

/-- The append size-policy check passing: the file exists and the sum of
its current size and the UTF-8 length of the new content is within the
limit. -/
def appendSizeOk (fs : FS) (filePath content : String) (config : Config) : Bool :=
  match lookupFS fs filePath with
  | some old => old.utf8ByteSize + content.utf8ByteSize ≤ config.maxFileSize
  | none => false

/-! ## The line-windowed read path

The tool schema declares `start_line`, `end_line` and `max_lines` for
`read_file` and the dispatcher forwards them, but the implementation of
the windowing itself is not among the provided sources; it is modelled
from the specification below. -/

structure ReadOptions where
  startLine : Option Nat
  endLine : Option Nat
  maxLines : Option Nat
deriving DecidableEq

/-- Modelled from the spec: the missing line-window implementation of
`handleReadFile` resolves the effective start line as `startLine` when
given and at least 1, else 1. -/
def effectiveStart (opts : ReadOptions) : Nat :=
  match opts.startLine with
  | some s => if 1 ≤ s then s else 1
  | none => 1

/-- Modelled from the spec: the missing line-window implementation of
`handleReadFile` resolves the effective end line as `endLine` when given,
else `start + maxLines - 1` when `maxLines` is given, else the total line
count. -/
def resolveEnd (opts : ReadOptions) (start total : Nat) : Nat :=
  match opts.endLine with
  | some e => e
  | none =>
    match opts.maxLines with
    | some m => start + m - 1
    | none => total

/-- The lines of a file: the content split at newline characters,
1-indexed in all reporting. -/
def splitLines (content : String) : List String :=
  (splitChar '\n' [] content.data).map fun l => (⟨l⟩ : String)

def totalLines (content : String) : Nat :=
  (splitLines content).length

inductive ReadResult where
  | window (start stop total : Nat) (body : List String)
  | rangeError (total reqStart reqEnd : Nat)
deriving DecidableEq

/-- Modelled from the spec: the line-windowed read of `handleReadFile`,
whose implementation is not among the provided sources (the dispatcher
and the tool schema reference it).  Split the content into 1-indexed
lines, resolve the effective start and end, clamp the end to the total
line count, report a range error carrying the total line count and the
requested range when the effective start exceeds the total, and
otherwise return the selected inclusive range with a header recording
the range and the total. -/
def readWindow (content : String) (opts : ReadOptions) : ReadResult :=
  let lines := splitLines content
  let total := lines.length
  let start := effectiveStart opts
  let rawEnd := resolveEnd opts start total
  let stop := min rawEnd total
  if total < start then .rangeError total start rawEnd
  else .window start stop total ((lines.drop (start - 1)).take (stop + 1 - start))

/-- Modelled from the spec: the full windowed `read_file` handler invoked
by the dispatcher, sequencing the same validation gate as the provided
whole-file `handleReadFile` before delegating to `readWindow`. -/
def handleReadFileWindowed (filePath : String) (opts : ReadOptions)
    (config : Config) (fs : FS) : FS × HandlerMsg :=
  if !(validatePath filePath) then (fs, .invalidPath)
  else if !(validateFileExtension filePath config) then
    (fs, .extNotAllowed (extname filePath) config.allowedExtensions)
  else if !(checkFileSize filePath config fs) then
    (fs, .fileTooLarge config.maxFileSize)
  else
    match lookupFS fs filePath with
    | none => (fs, .readFailure)
    | some content =>
      match readWindow content opts with
      | .window start stop total body => (fs, .readWindowed (start, stop, total) body)
      | .rangeError total reqStart reqEnd => (fs, .readRangeError total reqStart reqEnd)

/-! ## index.ts dispatch -/

structure Request where
  path : String
  content : String
  startLine : Option Nat
  endLine : Option Nat
  maxLines : Option Nat
deriving DecidableEq

inductive DispatchResult where
  | result (fs : FS) (msg : HandlerMsg)
  | protocolError (name : String)
deriving DecidableEq

/-- The six tool names handled by the dispatch switch in index.ts. -/
def knownOps : List String :=
  ["read_file", "write_file", "file_exists", "create_file", "append_file", "get_file_info"]

/-- index.ts `CallToolRequestSchema` handler: route the named tool to its
handler and return its textual result; an unrecognized name throws a
protocol-level McpError. -/
def dispatch (name : String) (req : Request) (config : Config) (fs : FS) :
    DispatchResult :=
  if name = "read_file" then
    let r := handleReadFileWindowed req.path ⟨req.startLine, req.endLine, req.maxLines⟩ config fs
    .result r.1 r.2
  else if name = "write_file" then
    let r := handleWriteFile req.path req.content config fs
    .result r.1 r.2
  else if name = "file_exists" then
    let r := handleFileExists req.path fs
    .result r.1 r.2
  else if name = "create_file" then
    let r := handleCreateFile req.path req.content config fs
    .result r.1 r.2
  else if name = "append_file" then
    let r := handleAppendFile req.path req.content config fs
    .result r.1 r.2
  else if name = "get_file_info" then
    let r := handleGetFileInfo req.path config fs
    .result r.1 r.2
  else .protocolError name

/-! ## Concrete scenario data -/

/-- The ten-line file of the windowed-read scenario. -/
def tenLineFile : String :=
  "l1\nl2\nl3\nl4\nl5\nl6\nl7\nl8\nl9\nl10"

/-- The configuration of the size-policy scenario: only .md, 100-byte limit. -/
def scenarioConfig : Config :=
  ⟨[".md"], 100⟩

/-- A 50-byte ASCII content. -/
def fiftyBytes : String :=
  ⟨List.replicate 50 'a'⟩

/-- A 60-byte ASCII content. -/
def sixtyBytes : String :=
  ⟨List.replicate 60 'b'⟩

/-- Invariant satisfied by every entry of the normalization stack: the
entry is a nonempty segment containing no slash. -/
def GoodEntry (e : List Char) : Prop :=
  e ≠ [] ∧ '/' ∉ e

/-! ## Helper lemmas about the path machinery -/

theorem hasDotDot_append (pre t : List Char) (h : hasDotDot t = true) :
    hasDotDot (pre ++ t) = true := by
  induction pre with
  | nil => simpa using h
  | cons a pre ih =>
    have hne : pre ++ t ≠ [] := by
      intro he
      rcases List.append_eq_nil.mp he with ⟨-, ht⟩
      rw [ht] at h
      simp [hasDotDot] at h
    cases hpt : pre ++ t with
    | nil => exact absurd hpt hne
    | cons b rest =>
      rw [hpt] at ih
      rw [List.cons_append, hpt, hasDotDot]
      simp [ih]

theorem mem_splitChar_dotdot :
    ∀ (l cur : List Char), ['.', '.'] ∈ splitChar '/' cur l →
      hasDotDot (cur.reverse ++ l) = true := by
  intro l
  induction l with
  | nil =>
    intro cur h
    simp [splitChar] at h
    rw [List.append_nil, ← h]
    decide
  | cons c rest ih =>
    intro cur h
    by_cases hc : c = '/'
    · simp only [splitChar, hc, if_pos rfl] at h
      rcases List.mem_cons.mp h with h | h
      · rw [← h]
        simp [hasDotDot]
      · have h2 : hasDotDot rest = true := by simpa using ih [] h
        have h3 := hasDotDot_append (cur.reverse ++ [c]) rest h2
        simpa [List.append_assoc] using h3
    · simp only [splitChar, if_neg hc] at h
      have h2 := ih (c :: cur) h
      simpa [List.reverse_cons, List.append_assoc] using h2

theorem splitChar_no_slash :
    ∀ (l cur : List Char), '/' ∉ cur → ∀ s ∈ splitChar '/' cur l, '/' ∉ s := by
  intro l
  induction l with
  | nil =>
    intro cur hcur s hs
    simp [splitChar] at hs
    rw [hs]
    simpa using hcur
  | cons c rest ih =>
    intro cur hcur s hs
    by_cases hc : c = '/'
    · simp only [splitChar, hc, if_pos rfl] at hs
      rcases List.mem_cons.mp hs with hs | hs
      · rw [hs]
        simpa using hcur
      · exact ih [] (by simp) s hs
    · simp only [splitChar, if_neg hc] at hs
      refine ih (c :: cur) ?_ s hs
      intro hmem
      rcases List.mem_cons.mp hmem with hmem | hmem
      · exact hc hmem.symm
      · exact hcur hmem

theorem goodEntry_dotdot : GoodEntry ['.', '.'] := by
  constructor <;> decide

theorem normStep_inv {a : Bool} {stk : List (List Char)} {seg : List Char}
    (hstk : ∀ e ∈ stk, GoodEntry e) (hseg : '/' ∉ seg) :
    ∀ e ∈ normStep a stk seg, GoodEntry e := by
  intro e he
  unfold normStep at he
  by_cases h1 : seg = [] ∨ seg = ['.']
  · rw [if_pos h1] at he
    exact hstk e he
  · rw [if_neg h1] at he
    by_cases h2 : seg = ['.', '.']
    · rw [if_pos h2] at he
      by_cases h3 : stk.head? = some ['.', '.']
      · rw [if_pos h3] at he
        cases a with
        | false =>
          simp only [if_neg Bool.false_ne_true] at he
          exact hstk e he
        | true =>
          simp only [if_pos rfl] at he
          rcases List.mem_cons.mp he with he | he
          · rw [he]; exact goodEntry_dotdot
          · exact hstk e he
      · rw [if_neg h3] at he
        by_cases h4 : stk = []
        · rw [if_pos h4] at he
          cases a with
          | false => simp at he
          | true =>
            simp only [if_pos rfl] at he
            simp at he
            rw [he]; exact goodEntry_dotdot
        · rw [if_neg h4] at he
          exact hstk e (List.mem_of_mem_tail he)
    · rw [if_neg h2] at he
      rcases List.mem_cons.mp he with he | he
      · refine he ▸ ⟨?_, hseg⟩
        intro hnil
        exact h1 (Or.inl hnil)
      · exact hstk e he

theorem normStack_inv (a : Bool) :
    ∀ (segs stk : List (List Char)), (∀ e ∈ stk, GoodEntry e) →
      (∀ s ∈ segs, '/' ∉ s) → ∀ e ∈ normStack a stk segs, GoodEntry e := by
  intro segs
  induction segs with
  | nil =>
    intro stk hstk _
    simpa [normStack] using hstk
  | cons seg rest ih =>
    intro stk hstk hsegs
    rw [normStack]
    exact ih _ (normStep_inv hstk (hsegs seg (by simp)))
      (fun s hs => hsegs s (by simp [hs]))

theorem joinChar_cons_head (c : Char) (s2 : List Char) (t : List (List Char)) :
    ∃ r, joinChar '/' ((c :: s2) :: t) = c :: r := by
  cases t with
  | nil => exact ⟨s2, rfl⟩
  | cons u t2 => exact ⟨s2 ++ '/' :: joinChar '/' (u :: t2), rfl⟩

theorem normBody_shape (a : Bool) (p : List Char) :
    normBody a p = [] ∨ ∃ c r, normBody a p = c :: r ∧ c ≠ '/' := by
  unfold normBody
  have hstk : ∀ e ∈ normStack a [] (splitChar '/' [] p), GoodEntry e :=
    normStack_inv a (splitChar '/' [] p) [] (by simp)
      (splitChar_no_slash p [] (by simp))
  cases hrev : (normStack a [] (splitChar '/' [] p)).reverse with
  | nil => exact Or.inl rfl
  | cons s t =>
    have hs : GoodEntry s := by
      refine hstk s ?_
      rw [← List.mem_reverse, hrev]
      simp
    obtain ⟨hne, hnos⟩ := hs
    cases s with
    | nil => exact absurd rfl hne
    | cons c s2 =>
      obtain ⟨r, hr⟩ := joinChar_cons_head c s2 t
      refine Or.inr ⟨c, r, hr, ?_⟩
      intro hcs
      exact hnos (hcs ▸ List.mem_cons_self c s2)

theorem isAbsoluteChars_posixNormalizeChars (p : List Char) :
    isAbsoluteChars (posixNormalizeChars p) = isAbsoluteChars p := by
  by_cases hp : p = []
  · rw [hp]
    decide
  · cases habs : isAbsoluteChars p with
    | true =>
      simp only [posixNormalizeChars, if_neg hp, habs, Bool.not_true]
      by_cases hb : normBody false p = []
      · simp [hb, isAbsoluteChars]
      · simp [hb, isAbsoluteChars]
    | false =>
      simp only [posixNormalizeChars, if_neg hp, habs, Bool.not_false]
      by_cases hb : normBody true p = []
      · simp only [hb, if_pos rfl]
        cases hasTrailingSlash p <;> simp [isAbsoluteChars]
      · rcases normBody_shape true p with hsh | ⟨c, r, hcr, hcne⟩
        · exact absurd hsh hb
        · simp only [if_neg hb, Bool.false_eq_true, if_false, hcr]
          cases hasTrailingSlash p <;> simp [isAbsoluteChars, hcne]

theorem isAbsolute_posixNormalize (p : String) :
    isAbsolute (posixNormalize p) = isAbsolute p :=
  isAbsoluteChars_posixNormalizeChars p.data

/-! ## Claim theorems -/

/-- Claim C2: for every path p whose lexically normalized form contains a
parent-directory segment and which is not absolute, validatePath p returns
false; and for every absolute path p, validatePath p returns true
regardless of its content. -/
theorem validatePath_characterization :
    (∀ p : String, hasParentSegment (posixNormalize p) → isAbsolute p = false →
      validatePath p = false) ∧
    (∀ p : String, isAbsolute p = true → validatePath p = true) := by
  constructor
  · intro p hseg habs
    have hdd : stringHasDotDot (posixNormalize p) = true := by
      have h := mem_splitChar_dotdot (posixNormalize p).data [] hseg
      simpa [stringHasDotDot] using h
    have habs2 : isAbsolute (posixNormalize p) = false := by
      rw [isAbsolute_posixNormalize]; exact habs
    simp [validatePath, hdd, habs2]
  · intro p habs
    have habs2 : isAbsolute (posixNormalize p) = true := by
      rw [isAbsolute_posixNormalize]; exact habs
    simp [validatePath, habs2]

/-- Witness for claim C2 at concrete inputs: a relative path whose
normalized form keeps a parent-directory segment is rejected, and an
absolute path is accepted. -/
theorem validatePath_characterization_witness :
    validatePath "../a.txt" = false ∧ validatePath "/etc/passwd" = true :=
  ⟨validatePath_characterization.1 "../a.txt" (by decide) (by decide),
   validatePath_characterization.2 "/etc/passwd" (by decide)⟩

/-- Claim C10: the relative path my..notes.txt has no parent-directory
segment in its normalized form, yet validatePath rejects it, because the
source tests for the two-character substring anywhere in the normalized
path rather than for a parent-directory segment. -/
theorem validatePath_rejects_inner_dotdot_substring :
    validatePath "my..notes.txt" = false ∧
    ¬ hasParentSegment (posixNormalize "my..notes.txt") ∧
    isAbsolute "my..notes.txt" = false := by
  decide

/-- Claim C1: for write_file, create_file and append_file, no filesystem
mutation happens unless the path-safety check, the extension-policy check
and the applicable size-policy check all returned true for the request;
when a check fails the handler returns a textual error and the filesystem
is unchanged. -/
theorem mutation_gate (p c : String) (config : Config) (fs : FS) :
    ((validatePath p = false ∨ validateFileExtension p config = false ∨
        validateContentSize c config = false) →
      (handleWriteFile p c config fs).1 = fs ∧
        isErrorMsg (handleWriteFile p c config fs).2 = true) ∧
    ((validatePath p = false ∨ validateFileExtension p config = false ∨
        validateContentSize c config = false) →
      (handleCreateFile p c config fs).1 = fs ∧
        isErrorMsg (handleCreateFile p c config fs).2 = true) ∧
    ((validatePath p = false ∨ validateFileExtension p config = false ∨
        appendOverLimit fs p c config = true) →
      (handleAppendFile p c config fs).1 = fs ∧
        isErrorMsg (handleAppendFile p c config fs).2 = true) ∧
    ((handleWriteFile p c config fs).1 ≠ fs →
      validatePath p = true ∧ validateFileExtension p config = true ∧
        validateContentSize c config = true) ∧
    ((handleCreateFile p c config fs).1 ≠ fs →
      validatePath p = true ∧ validateFileExtension p config = true ∧
        validateContentSize c config = true) ∧
    ((handleAppendFile p c config fs).1 ≠ fs →
      validatePath p = true ∧ validateFileExtension p config = true ∧
        appendSizeOk fs p c config = true) := by
  refine ⟨?_, ?_, ?_, ?_, ?_, ?_⟩
  · intro h
    unfold handleWriteFile
    split_ifs with h1 h2 h3
    · simp [isErrorMsg]
    · simp [isErrorMsg]
    · simp [isErrorMsg]
    · exfalso
      simp only [Bool.not_eq_true, Bool.not_eq_false', Bool.not_eq_true'] at h1 h2 h3
      rcases h with h | h | h <;> simp_all
  · intro h
    unfold handleCreateFile
    split_ifs with h1 h2 h3 h4
    · simp [isErrorMsg]
    · simp [isErrorMsg]
    · simp [isErrorMsg]
    · simp [isErrorMsg]
    · exfalso
      simp only [Bool.not_eq_true, Bool.not_eq_false', Bool.not_eq_true'] at h1 h2 h4
      rcases h with h | h | h <;> simp_all
  · intro h
    unfold handleAppendFile
    split_ifs with h1 h2
    · simp [isErrorMsg]
    · simp [isErrorMsg]
    · cases hl : lookupFS fs p with
      | none => simp [hl, isErrorMsg]
      | some old =>
        simp only [hl]
        simp only [Bool.not_eq_true, Bool.not_eq_false', Bool.not_eq_true'] at h1 h2
        by_cases hs : old.utf8ByteSize + c.utf8ByteSize > config.maxFileSize
        · simp [hs, isErrorMsg]
        · exfalso
          rcases h with h | h | h
          · simp_all
          · simp_all
          · rw [appendOverLimit, hl] at h
            simp at h
            omega
  · intro hne
    unfold handleWriteFile at hne
    split_ifs at hne with h1 h2 h3
    · simp at hne
    · simp at hne
    · simp at hne
    · simp only [Bool.not_eq_true, Bool.not_eq_false', Bool.not_eq_true'] at h1 h2 h3
      exact ⟨by simpa using h1, by simpa using h2, by simpa using h3⟩
  · intro hne
    unfold handleCreateFile at hne
    split_ifs at hne with h1 h2 h3 h4
    · simp at hne
    · simp at hne
    · simp at hne
    · simp at hne
    · simp only [Bool.not_eq_true, Bool.not_eq_false', Bool.not_eq_true'] at h1 h2 h4
      exact ⟨by simpa using h1, by simpa using h2, by simpa using h4⟩
  · intro hne
    unfold handleAppendFile at hne
    split_ifs at hne with h1 h2
    · simp at hne
    · simp at hne
    · simp only [Bool.not_eq_true, Bool.not_eq_false', Bool.not_eq_true'] at h1 h2
      cases hl : lookupFS fs p with
      | none =>
        rw [hl] at hne
        simp at hne
      | some old =>
        rw [hl] at hne
        by_cases hs : old.utf8ByteSize + c.utf8ByteSize > config.maxFileSize
        · simp [hs] at hne
        · refine ⟨by simpa using h1, by simpa using h2, ?_⟩
          rw [appendSizeOk, hl]
          simp
          omega

/-- Witness for claim C1 at a concrete input: an unsafe relative path
leaves the empty filesystem unchanged and produces an error message. -/
theorem mutation_gate_witness :
    (handleWriteFile "../x.md" "hi" defaultConfig ([] : FS)).1 = ([] : FS) ∧
      isErrorMsg (handleWriteFile "../x.md" "hi" defaultConfig ([] : FS)).2 = true :=
  (mutation_gate "../x.md" "hi" defaultConfig ([] : FS)).1 (Or.inl (by decide))

/-- Counterexample to claim C3 as stated: for the dotfile path .md, the
extension in the sense of the claim (substring from the last dot of the
final segment) is .md, which belongs to the default allow-set, yet
validateFileExtension rejects the path, because Node extname treats a
leading dot of a dotfile as not starting an extension. -/
theorem extension_policy_claim_counterexample :
    claimExtension ".md" = ".md" ∧ ".md" ∈ defaultConfig.allowedExtensions ∧
    validateFileExtension ".md" defaultConfig = false := by
  decide

/-- Claim C3 (amended): validateFileExtension p config is true iff the
Node extname of p is a member of the allow-set under exact case-sensitive
comparison, where extname is the substring from the last dot of the final
segment except that a dotfile (whose final segment starts with its only
dot) yields the empty extension; configuration tokens are trimmed and a
leading dot is prepended when absent, and extensionless paths are
rejected under the default configuration. -/
theorem extension_policy_amended :
    (∀ (p : String) (config : Config),
        validateFileExtension p config = true ↔ extname p ∈ config.allowedExtensions) ∧
    parseAllowedExtensions ".md,txt" = [".md", ".txt"] ∧
    parseAllowedExtensions " md , .txt " = [".md", ".txt"] ∧
    extname "noext" = "" ∧
    extname "document.md" = ".md" ∧
    extname "archive.tar.gz" = ".gz" ∧
    extname ".bashrc" = "" ∧
    validateFileExtension "noext" defaultConfig = false ∧
    validateFileExtension "A.MD" defaultConfig = false ∧
    validateFileExtension "a.md" defaultConfig = true := by
  refine ⟨?_, by decide, by decide, by decide, by decide, by decide, by decide,
    by decide, by decide, by decide⟩
  intro p config
  simp [validateFileExtension, List.contains, List.elem_iff]

/-- Claim C6: append_file on an existing file is permitted iff the stored
size plus the UTF-8 byte length of the new content stays within
maxFileSize; in the scenario with limit 100, a 50-byte write succeeds and
a subsequent 60-byte append fails the size policy. -/
theorem append_size_policy :
    (∀ (fs : FS) (p c : String) (config : Config) (old : String),
        lookupFS fs p = some old → validatePath p = true →
        validateFileExtension p config = true →
        ((handleAppendFile p c config fs).2 = HandlerMsg.appendSuccess p ↔
          old.utf8ByteSize + c.utf8ByteSize ≤ config.maxFileSize)) ∧
    (handleWriteFile "a.md" fiftyBytes scenarioConfig ([] : FS)).2 =
      HandlerMsg.writeSuccess "a.md" ∧
    (handleAppendFile "a.md" sixtyBytes scenarioConfig
        (handleWriteFile "a.md" fiftyBytes scenarioConfig ([] : FS)).1).2 =
      HandlerMsg.appendTooLarge 100 := by
  refine ⟨?_, by decide, by decide⟩
  intro fs p c config old hl hv he
  simp only [handleAppendFile, hv, he, Bool.not_true, Bool.false_eq_true,
    if_false, hl]
  by_cases hs : old.utf8ByteSize + c.utf8ByteSize > config.maxFileSize
  · rw [if_pos hs]
    constructor
    · intro h
      simp at h
    · intro h
      exfalso
      omega
  · rw [if_neg hs]
    constructor
    · intro _
      omega
    · intro _
      rfl

/-- Witness for claim C6 at a concrete input: appending two bytes to a
five-byte file under the default limit is governed by the size sum. -/
theorem append_size_policy_witness :
    (handleAppendFile "a.md" "xy" defaultConfig [("a.md", "hello")]).2 =
        HandlerMsg.appendSuccess "a.md" ↔
      ("hello" : String).utf8ByteSize + ("xy" : String).utf8ByteSize ≤
        defaultConfig.maxFileSize :=
  append_size_policy.1 [("a.md", "hello")] "a.md" "xy" defaultConfig "hello"
    (by decide) (by decide) (by decide)

/-- Claim C7: create_file on an existing target (passing path and
extension checks) fails with the distinct already-exists error before any
size check or write, and append_file on a missing target fails with the
distinct does-not-exist error and performs no append. -/
theorem create_append_state_conflict :
    (∀ (fs : FS) (p c : String) (config : Config),
        (lookupFS fs p).isSome = true → validatePath p = true →
        validateFileExtension p config = true →
        handleCreateFile p c config fs = (fs, HandlerMsg.alreadyExists p)) ∧
    (∀ (fs : FS) (p c : String) (config : Config),
        lookupFS fs p = none → validatePath p = true →
        validateFileExtension p config = true →
        handleAppendFile p c config fs = (fs, HandlerMsg.doesNotExist p)) := by
  constructor
  · intro fs p c config hx hv he
    simp [handleCreateFile, hv, he, hx]
  · intro fs p c config hl hv he
    simp [handleAppendFile, hv, he, hl]

/-- Witness for claim C7 at concrete inputs: creating an existing
notes.md fails with already-exists even with oversized content, and
appending to a missing missing.md fails with does-not-exist. -/
theorem create_append_state_conflict_witness :
    handleCreateFile "notes.md" "y" defaultConfig [("notes.md", "x")] =
        ([("notes.md", "x")], HandlerMsg.alreadyExists "notes.md") ∧
    handleAppendFile "missing.md" "y" defaultConfig ([] : FS) =
        (([] : FS), HandlerMsg.doesNotExist "missing.md") :=
  ⟨create_append_state_conflict.1 [("notes.md", "x")] "notes.md" "y" defaultConfig
      (by decide) (by decide) (by decide),
   create_append_state_conflict.2 ([] : FS) "missing.md" "y" defaultConfig
      (by decide) (by decide) (by decide)⟩

/-- Claim C8: writing validated content with write_file and then reading
the same path with read_file without range parameters returns content
identical to what was written, trailing newline included. -/
theorem write_read_roundtrip (fs : FS) (p c : String) (config : Config)
    (hv : validatePath p = true) (he : validateFileExtension p config = true)
    (hs : validateContentSize c config = true) :
    (handleReadFile p config (handleWriteFile p c config fs).1).2 =
      HandlerMsg.readSuccess c := by
  have hw : (handleWriteFile p c config fs).1 = setFS fs p c := by
    simp [handleWriteFile, hv, he, hs]
  have hl : lookupFS (setFS fs p c) p = some c := by
    simp [lookupFS, setFS, List.lookup]
  have hcf : checkFileSize p config (setFS fs p c) = true := by
    rw [checkFileSize, hl]
    simpa [validateContentSize] using hs
  rw [hw]
  simp [handleReadFile, hv, he, hcf, hl]

/-- Witness for claim C8 at a concrete input: hello with a trailing
newline survives the write then read round trip byte-identically. -/
theorem write_read_roundtrip_witness :
    (handleReadFile "doc.md" defaultConfig
        (handleWriteFile "doc.md" "hello\n" defaultConfig ([] : FS)).1).2 =
      HandlerMsg.readSuccess "hello\n" :=
  write_read_roundtrip ([] : FS) "doc.md" "hello\n" defaultConfig
    (by decide) (by decide) (by decide)

/-- Claim C4: the effective end line of a windowed read is endLine when
given, else effective start plus maxLines minus 1 when maxLines is given,
else the total line count; endLine takes precedence over maxLines; and on
a ten-line file the request start 5 with maxLines 3 returns exactly lines
5 through 7 with a header reporting the range and the total of 10. -/
theorem read_window_end_resolution :
    (∀ (content : String) (s : Option Nat) (e m : Nat),
        readWindow content ⟨s, some e, some m⟩ = readWindow content ⟨s, some e, none⟩) ∧
    (∀ (content : String) (s m : Nat), 1 ≤ s →
        readWindow content ⟨some s, none, some m⟩ =
          readWindow content ⟨some s, some (s + m - 1), none⟩) ∧
    (∀ (content : String) (s : Option Nat),
        readWindow content ⟨s, none, none⟩ =
          readWindow content ⟨s, some (totalLines content), none⟩) ∧
    readWindow tenLineFile ⟨some 5, none, some 3⟩ =
      ReadResult.window 5 7 10 ["l5", "l6", "l7"] := by
  refine ⟨?_, ?_, ?_, by decide⟩
  · intro content s e m
    rfl
  · intro content s m h
    simp [readWindow, effectiveStart, resolveEnd, if_pos h]
  · intro content s
    rfl

/-- Witness for claim C4 at a concrete input: with start 2 the
maxLines-derived bound coincides with passing endLine 4. -/
theorem read_window_end_resolution_witness :
    readWindow tenLineFile ⟨some 2, none, some 3⟩ =
      readWindow tenLineFile ⟨some 2, some (2 + 3 - 1), none⟩ :=
  read_window_end_resolution.2.1 tenLineFile 2 3 (by decide)

/-- Claim C5: a windowed read whose effective start exceeds the total
line count returns a range error reporting the total line count and the
requested range instead of a silent empty result. -/
theorem read_window_range_error (content : String) (opts : ReadOptions)
    (h : totalLines content < effectiveStart opts) :
    readWindow content opts =
      ReadResult.rangeError (totalLines content) (effectiveStart opts)
        (resolveEnd opts (effectiveStart opts) (totalLines content)) := by
  unfold totalLines at h
  simp [readWindow, totalLines, if_pos h]

/-- Witness for claim C5 at a concrete input: requesting line 15 of the
ten-line file yields the range error carrying 10 and the request. -/
theorem read_window_range_error_witness :
    readWindow tenLineFile ⟨some 15, none, none⟩ = ReadResult.rangeError 10 15 10 :=
  (read_window_range_error tenLineFile ⟨some 15, none, none⟩ (by decide)).trans
    (by decide)

/-- Claim C9: every recognized operation name produces an ordinary
textual result through the response channel no matter the request and
state, and only an unrecognized operation name propagates as a
transport-level protocol error. -/
theorem dispatch_boundary :
    (∀ (name : String) (req : Request) (config : Config) (fs : FS),
        name ∈ knownOps → ∃ fs2 msg, dispatch name req config fs = .result fs2 msg) ∧
    (∀ (name : String) (req : Request) (config : Config) (fs : FS),
        name ∉ knownOps → dispatch name req config fs = .protocolError name) := by
  constructor
  · intro name req config fs h
    simp only [knownOps, List.mem_cons, List.not_mem_nil, or_false] at h
    rcases h with h | h | h | h | h | h <;> subst h <;> exact ⟨_, _, rfl⟩
  · intro name req config fs h
    simp only [knownOps, List.mem_cons, List.not_mem_nil, or_false, not_or] at h
    obtain ⟨h1, h2, h3, h4, h5, h6⟩ := h
    simp [dispatch, h1, h2, h3, h4, h5, h6]

/-- Witness for claim C9 at a concrete input: an unknown tool name is the
one case surfaced as a protocol error. -/
theorem dispatch_boundary_witness :
    dispatch "unknown_tool" ⟨"a.md", "x", none, none, none⟩ defaultConfig ([] : FS) =
      DispatchResult.protocolError "unknown_tool" :=
  dispatch_boundary.2 "unknown_tool" ⟨"a.md", "x", none, none, none⟩ defaultConfig
    ([] : FS) (by decide)

end FileEditor
